import Mathlib

/-!
Shallow embedding of the repository's two source files:

* `src/database_builder.py` — the ingestion validator `clean_and_validate_data`
  (future-date filter, OHLC completeness rule, price-logic rule,
  extreme-volatility rule, audit log).
* `src/DataProcess.py` — the feature pipeline: `average_price` (rolling mean
  with `min_periods=1`), `filter_for_date` (inclusive date-window filter) and
  `prediction_data_processing` (per-instrument feature derivation with its
  right/left merges and the final `fillna(0)` pass).

Conventions of the embedding:
* dates are integers (days); prices and volumes are rationals;
* a pandas `NaN` cell is `Option.none`; arithmetic on possibly-undefined cells
  (`oSub`, `oDiv`, ...) propagates `none` exactly as pandas propagates `NaN`.
  Division by a zero denominator is mapped to `none`; on the data reachable in
  the claims (clean series with positive prices) the only zero denominators
  are pandas `0/0 = NaN` cases, so the identification is faithful there;
* a dataframe grouped by `Stock_ID` is a list of `(stock id, date-ascending
  observation list)` pairs; this is the normal form produced by the source's
  `sort_values(['Stock_ID', 'Date'])` on a clean series (the
  `(Date, Stock_ID)` primary key makes group dates strictly increasing, so
  every descending date sort in the source is the list reversal);
* keyed frames are association lists (`Table`); pandas
  `merge(on='Stock_ID', how='right'/'left')` on the unique-keyed frames of
  this pipeline is keyed lookup (`mergeRight`, `lookupT`).  Intermediate
  frame row order is kept in group order rather than the source's global
  date order; no claim concerns row order and all statements are per key.
-/

/-! ### Part 1 — the validator of `database_builder.py` -/

/-- One raw observation row as fetched upstream (`database_builder.py`):
a date plus OHLC cells that may be missing (pandas `NaN`) and a volume. -/
structure RawRow where
  date : ℤ
  Open : Option ℚ
  High : Option ℚ
  Low : Option ℚ
  Close : Option ℚ
  Volume : ℚ
deriving DecidableEq

/-- Audit reasons written by `database_builder.py`
(`'Missing Values (NaN)'`, `'Logic Error (Zero or H/L invalid)'`,
`'Extreme Volatility (>50%)'`). -/
inductive Reason where
  | MISSING_OHLC
  | LOGIC_ERROR
  | EXTREME_VOLATILITY
deriving DecidableEq

/-- Line 83 of `database_builder.py`: a row is complete when none of the four
price cells is `NaN`. -/
def hasOHLC (r : RawRow) : Bool :=
  r.Open.isSome && r.High.isSome && r.Low.isSome && r.Close.isSome

/-- Lines 97-99 of `database_builder.py`: `mask_zero` or `mask_logic_error`.
It is evaluated only on rows that passed the completeness rule, so the `getD`
defaults are never read. -/
def logicBad (r : RawRow) : Bool :=
  let o := r.Open.getD 0
  let h := r.High.getD 0
  let l := r.Low.getD 0
  let c := r.Close.getD 0
  decide (o ≤ 0) || decide (h ≤ 0) || decide (l ≤ 0) || decide (c ≤ 0) ||
    decide (h < l) || decide (h < o) || decide (h < c) ||
    decide (l > o) || decide (l > c)

/-- Line 79 of `database_builder.py`: keep only rows not dated after `now`. -/
def notFuture (now : ℤ) (df : List RawRow) : List RawRow :=
  df.filter (fun r => decide (r.date ≤ now))

/-- Lines 83-85 of `database_builder.py`: the rows the completeness rule
quarantines. -/
def naRows (now : ℤ) (df : List RawRow) : List RawRow :=
  (notFuture now df).filter (fun r => !hasOHLC r)

/-- Line 88 of `database_builder.py`: survivors of the future-date and
completeness rules. -/
def survivors (now : ℤ) (df : List RawRow) : List RawRow :=
  (notFuture now df).filter hasOHLC

/-- Line 101 of `database_builder.py`: rows the logic-consistency rule
quarantines. -/
def badLogic (now : ℤ) (df : List RawRow) : List RawRow :=
  (survivors now df).filter logicBad

/-- Line 106 of `database_builder.py`: survivors of the logic-consistency
rule. -/
def logicOK (now : ℤ) (df : List RawRow) : List RawRow :=
  (survivors now df).filter (fun r => !logicBad r)

/-- Absolute value on the rationals, written out so that it evaluates by
kernel reduction. -/
def qabs (x : ℚ) : ℚ := if x < 0 then -x else x

/-- Line 115 of `database_builder.py` for one row: the absolute day-over-day
percentage change of `Close` exceeds 0.5.  `prev` is the previous row's close
in the logic-surviving sequence; the first row has none and is never flagged
(pandas `pct_change` yields `NaN` there and `NaN > 0.5` is false).
`prev = some 0` cannot occur on reachable data because the logic rule removed
non-positive closes. -/
def isExtreme (prev : Option ℚ) (c : ℚ) : Bool :=
  match prev with
  | none => false
  | some p => decide (qabs ((c - p) / p) > 1 / 2)

/-- Lines 111-120 of `database_builder.py`: the volatility rule, evaluated
once on the full logic-surviving sequence (`pct_change` is computed before
any removal), then split into (kept rows, quarantined rows).  The baseline
`prev` always advances to the current row's close even when that row is
flagged, exactly as the single `pct_change` pass does. -/
def extremeSplit : Option ℚ → List RawRow → List RawRow × List RawRow
  | _, [] => ([], [])
  | prev, r :: rs =>
    let c := r.Close.getD 0
    let rest := extremeSplit (some c) rs
    if isExtreme prev c then (rest.1, r :: rest.2) else (r :: rest.1, rest.2)

/-- Lines 65-129 of `database_builder.py`: `clean_and_validate_data`.
Returns `(clean, audit)`; `clean = none` mirrors the source's `None` sentinel
(empty input, or nothing surviving the completeness rule), and the audit log
is the concatenation of the three rules' rejects with their reasons. -/
def clean_and_validate_data (now : ℤ) (df : List RawRow) :
    Option (List RawRow) × Option (List (Reason × RawRow)) :=
  if df = [] then (none, none)
  else
    let na := (naRows now df).map (fun r => (Reason.MISSING_OHLC, r))
    if survivors now df = [] then (none, some na)
    else
      let bad := (badLogic now df).map (fun r => (Reason.LOGIC_ERROR, r))
      let es := extremeSplit none (logicOK now df)
      (some es.1,
       some (na ++ bad ++ es.2.map (fun r => (Reason.EXTREME_VOLATILITY, r))))

/-- A row that passes every rule: all four price cells equal to `q`. -/
def vrow (d : ℤ) (q : ℚ) : RawRow := ⟨d, some q, some q, some q, some q, 0⟩

/-- Input for the idempotence claim: closes 100, 160, 240 on days 1-3. -/
def exC3 : List RawRow := [vrow 1 100, vrow 2 160, vrow 3 240]

/-- A row whose close is negative, as in the spec's scenario for
instrument `B`. -/
def exBad : RawRow := ⟨2, some 5, some 5, some 5, some (-5), 0⟩

/-- Input containing one good and one logic-violating row. -/
def exC6 : List RawRow := [vrow 1 100, exBad]

/-! ### Part 1 — helper lemmas about the validator -/

theorem extremeSplit_keep_subset {r : RawRow} :
    ∀ {prev : Option ℚ} {l : List RawRow}, r ∈ (extremeSplit prev l).1 → r ∈ l := by
  intro prev l
  induction l generalizing prev with
  | nil => intro h; simp [extremeSplit] at h
  | cons a t ih =>
    intro h
    simp only [extremeSplit] at h
    by_cases hf : isExtreme prev (a.Close.getD 0) = true
    · simp [hf] at h
      exact List.mem_cons_of_mem a (ih h)
    · simp [hf] at h
      rcases h with h | h
      · exact h ▸ List.mem_cons_self a t
      · exact List.mem_cons_of_mem a (ih h)

theorem extremeSplit_drop_nil :
    ∀ {prev : Option ℚ} {l : List RawRow},
      (extremeSplit prev l).2 = [] → (extremeSplit prev l).1 = l := by
  intro prev l
  induction l generalizing prev with
  | nil => intro _; simp [extremeSplit]
  | cons a t ih =>
    intro h
    simp only [extremeSplit] at h ⊢
    by_cases hf : isExtreme prev (a.Close.getD 0) = true
    · simp [hf] at h
    · simp [hf] at h ⊢
      exact ih h

theorem mem_logicOK_props {now : ℤ} {df : List RawRow} {r : RawRow}
    (h : r ∈ logicOK now df) :
    r ∈ df ∧ r.date ≤ now ∧ hasOHLC r = true ∧ logicBad r = false := by
  simp only [logicOK, survivors, notFuture, List.mem_filter] at h
  obtain ⟨⟨⟨hdf, hdate⟩, hohlc⟩, hok⟩ := h
  refine ⟨hdf, by simpa using hdate, hohlc, by simpa using hok⟩

theorem clean_eq_extremeKeep {now : ℤ} {df : List RawRow} {cl : List RawRow}
    (h : (clean_and_validate_data now df).1 = some cl) :
    cl = (extremeSplit none (logicOK now df)).1 := by
  by_cases h0 : df = []
  · simp [clean_and_validate_data, h0] at h
  · by_cases h1 : survivors now df = []
    · simp [clean_and_validate_data, h0, h1] at h
    · simp [clean_and_validate_data, h0, h1] at h
      exact h.symm

/-! ### Part 1 — claim theorems about the validator -/

/-- C9: on an empty raw series `clean_and_validate_data` returns the sentinel
`(none, none)`, and on a series in which every point fails the future-date or
completeness rules the clean output is the sentinel `none` rather than an
empty series. -/
theorem c9_empty_returns_none (now : ℤ) (df : List RawRow) :
    (df = [] → clean_and_validate_data now df = (none, none)) ∧
    ((∀ r ∈ df, now < r.date ∨ hasOHLC r = false) →
      (clean_and_validate_data now df).1 = none) := by
  constructor
  · intro h; simp [clean_and_validate_data, h]
  · intro h
    by_cases h0 : df = []
    · simp [clean_and_validate_data, h0]
    · have hs : survivors now df = [] := by
        simp only [survivors, notFuture]
        rw [List.filter_eq_nil_iff]
        intro r hr
        rw [List.mem_filter] at hr
        obtain ⟨hrdf, hrdate⟩ := hr
        rcases h r hrdf with hfut | hna
        · exact absurd (by simpa using hrdate) (not_le.mpr hfut)
        · simp [hna]
      simp [clean_and_validate_data, h0, hs]

/-- C10: the chronologically first point surviving the completeness and
logic-consistency rules is never quarantined with `EXTREME_VOLATILITY`: it
heads the clean series, and the extreme-quarantine list is exactly the one
computed over the remaining points. -/
theorem c10_first_point_not_extreme (now : ℤ) (df : List RawRow)
    (first : RawRow) (rest : List RawRow) (h : logicOK now df = first :: rest) :
    (clean_and_validate_data now df).1
      = some (first :: (extremeSplit (some (first.Close.getD 0)) rest).1) ∧
    (extremeSplit none (logicOK now df)).2
      = (extremeSplit (some (first.Close.getD 0)) rest).2 := by
  have hfirst : first ∈ logicOK now df := h ▸ List.mem_cons_self first rest
  obtain ⟨hdf, -, -, -⟩ := mem_logicOK_props hfirst
  have h0 : df ≠ [] := List.ne_nil_of_mem hdf
  have h1 : survivors now df ≠ [] := by
    have : first ∈ survivors now df := by
      simp only [logicOK, List.mem_filter] at hfirst
      exact hfirst.1
    exact List.ne_nil_of_mem this
  constructor
  · simp [clean_and_validate_data, h0, h1, h, extremeSplit, isExtreme]
  · simp [h, extremeSplit, isExtreme]

/-- C6: among survivors of the future-date and completeness rules, a point is
quarantined by the logic-consistency rule exactly when some price is
non-positive, or the high is below the low, open or close, or the low is
above the open or close; a so-quarantined point never reaches the
volatility-rule input `logicOK` nor the clean output. -/
theorem c6_logic_error_rule (now : ℤ) (df : List RawRow) (r : RawRow)
    (o h l c : ℚ) (hmem : r ∈ survivors now df) (ho : r.Open = some o)
    (hh : r.High = some h) (hl : r.Low = some l) (hc : r.Close = some c) :
    (r ∈ badLogic now df ↔
      (o ≤ 0 ∨ h ≤ 0 ∨ l ≤ 0 ∨ c ≤ 0 ∨ h < l ∨ h < o ∨ h < c ∨ l > o ∨ l > c)) ∧
    (r ∈ badLogic now df →
      r ∉ logicOK now df ∧
        ∀ cl, (clean_and_validate_data now df).1 = some cl → r ∉ cl) := by
  have hcond : logicBad r = true ↔
      (o ≤ 0 ∨ h ≤ 0 ∨ l ≤ 0 ∨ c ≤ 0 ∨ h < l ∨ h < o ∨ h < c ∨ l > o ∨ l > c) := by
    simp [logicBad, ho, hh, hl, hc, or_assoc]
  constructor
  · rw [badLogic, List.mem_filter]
    constructor
    · intro hx; exact hcond.mp hx.2
    · intro hx; exact ⟨hmem, hcond.mpr hx⟩
  · intro hbad
    rw [badLogic, List.mem_filter] at hbad
    have hnot : r ∉ logicOK now df := by
      rw [logicOK, List.mem_filter]
      intro hx
      rw [hbad.2] at hx
      simpa using hx.2
    refine ⟨hnot, fun cl hcl hrcl => ?_⟩
    rw [clean_eq_extremeKeep hcl] at hrcl
    exact hnot (extremeSplit_keep_subset hrcl)

/-- C6 witness: the spec's scenario row with `close = -5` is quarantined by
the logic rule and never appears in the clean output. -/
theorem c6_logic_error_rule_witness :
    exBad ∈ badLogic 10 exC6 ∧
      ∀ cl, (clean_and_validate_data 10 exC6).1 = some cl → exBad ∉ cl := by
  have h := c6_logic_error_rule 10 exC6 exBad 5 5 5 (-5)
    (by decide) rfl rfl rfl rfl
  have hbad : exBad ∈ badLogic 10 exC6 := h.1.mpr (by decide)
  exact ⟨hbad, (h.2 hbad).2⟩

/-- C9 witness: the sentinel is returned both on the empty input and on an
input whose single row is future-dated. -/
theorem c9_empty_returns_none_witness :
    clean_and_validate_data 10 ([] : List RawRow) = (none, none) ∧
    (clean_and_validate_data 10 [vrow 99 100]).1 = none := by
  exact ⟨(c9_empty_returns_none 10 []).1 rfl,
    (c9_empty_returns_none 10 [vrow 99 100]).2 (by decide)⟩

/-- C10 witness: on two well-behaved rows the first one heads the clean
output. -/
theorem c10_first_point_not_extreme_witness :
    (clean_and_validate_data 10 [vrow 1 100, vrow 2 120]).1
      = some (vrow 1 100 ::
          (extremeSplit (some ((vrow 1 100).Close.getD 0)) [vrow 2 120]).1) := by
  exact (c10_first_point_not_extreme 10 [vrow 1 100, vrow 2 120]
    (vrow 1 100) [vrow 2 120] (by decide)).1

/-- C3 counterexample: with closes 100, 160, 240 the first validation pass
quarantines only the middle row (the 240 jump is exactly 50 %, not above),
and re-running the validator on the clean output `[100, 240]` produces one
additional `EXTREME_VOLATILITY` audit entry (the 100 → 240 jump is 140 %)
and a changed series — the validator is not idempotent. -/
theorem c3_idempotence_counterexample :
    clean_and_validate_data 10 exC3
        = (some [vrow 1 100, vrow 3 240],
           some [(Reason.EXTREME_VOLATILITY, vrow 2 160)]) ∧
    clean_and_validate_data 10 [vrow 1 100, vrow 3 240]
        = (some [vrow 1 100],
           some [(Reason.EXTREME_VOLATILITY, vrow 3 240)]) := by
  constructor <;>
    norm_num [clean_and_validate_data, naRows, survivors, notFuture, badLogic,
      logicOK, extremeSplit, isExtreme, qabs, logicBad, hasOHLC, exC3, vrow] <;>
    decide

/-- C3 amended: re-running the validator on its own clean output produces no
`MISSING_OHLC` and no `LOGIC_ERROR` audit entries — every additional entry is
an `EXTREME_VOLATILITY` one caused by a quarantine shifting the day-over-day
baseline — and when no day-over-day change of the clean output exceeds 0.5
the second run returns the clean series unchanged with an empty audit log. -/
theorem c3_idempotence_amended (now : ℤ) (df : List RawRow)
    (cl : List RawRow) (h : (clean_and_validate_data now df).1 = some cl) :
    (∀ e ∈ ((clean_and_validate_data now cl).2.getD []),
        e.1 = Reason.EXTREME_VOLATILITY) ∧
    (cl ≠ [] → (extremeSplit none cl).2 = [] →
      clean_and_validate_data now cl = (some cl, some [])) := by
  have hclean := clean_eq_extremeKeep h
  have hprops : ∀ r ∈ cl, r.date ≤ now ∧ hasOHLC r = true ∧ logicBad r = false := by
    intro r hr
    rw [hclean] at hr
    have := mem_logicOK_props (extremeSplit_keep_subset hr)
    exact ⟨this.2.1, this.2.2⟩
  have hnf : notFuture now cl = cl := by
    rw [notFuture, List.filter_eq_self]
    intro r hr
    simpa using (hprops r hr).1
  have hna : naRows now cl = [] := by
    rw [naRows, hnf, List.filter_eq_nil_iff]
    intro r hr
    simp [(hprops r hr).2.1]
  have hsurv : survivors now cl = cl := by
    rw [survivors, hnf, List.filter_eq_self]
    intro r hr
    exact (hprops r hr).2.1
  have hbad : badLogic now cl = [] := by
    rw [badLogic, hsurv, List.filter_eq_nil_iff]
    intro r hr
    simp [(hprops r hr).2.2]
  have hok : logicOK now cl = cl := by
    rw [logicOK, hsurv, List.filter_eq_self]
    intro r hr
    simp [(hprops r hr).2.2]
  constructor
  · intro e he
    by_cases h0 : cl = []
    · simp [clean_and_validate_data, h0] at he
    · have h1 : survivors now cl ≠ [] := by rw [hsurv]; exact h0
      simp only [clean_and_validate_data, h0, if_false, h1, hna, hbad, hok] at he
      simp at he
      obtain ⟨r, -, hre⟩ := he
      rw [← hre]
  · intro h0 hdrop
    have h1 : survivors now cl ≠ [] := by rw [hsurv]; exact h0
    have hkeep : (extremeSplit none cl).1 = cl := extremeSplit_drop_nil hdrop
    simp [clean_and_validate_data, h0, h1, hna, hbad, hok, hdrop, hkeep]

/-- C3 amended witness: a single-row series validates to itself and a second
run returns it unchanged with an empty audit log. -/
theorem c3_idempotence_amended_witness :
    clean_and_validate_data 10 [vrow 1 100] = (some [vrow 1 100], some []) := by
  exact (c3_idempotence_amended 10 [vrow 1 100] [vrow 1 100] (by decide)).2
    (by decide) (by decide)

/-! ### Part 2 — the feature pipeline of `DataProcess.py` -/

/-- One clean observation of one instrument: the columns of the clean series
that `DataProcess.py` reads (`Date`, `Close`, `Volume`; the untouched
`Open/High/Low/Type` columns play no role in the derived features). -/
structure Obs where
  date : ℤ
  close : ℚ
  volume : ℚ
deriving DecidableEq

/-- An observation after the six `average_price` passes: the row plus its
`MA_5 ... MA_240` columns. -/
structure MObs where
  date : ℤ
  close : ℚ
  volume : ℚ
  ma5 : ℚ
  ma10 : ℚ
  ma20 : ℚ
  ma60 : ℚ
  ma120 : ℚ
  ma240 : ℚ
deriving DecidableEq

/-- The value pandas `rolling(h, min_periods=1).mean()` puts at position `i`
of the column `cs`: the mean of the last `min h (i+1)` entries up to and
including position `i`. -/
def wmean (h : ℕ) (cs : List ℚ) (i : ℕ) : ℚ :=
  ((cs.take (i + 1)).drop (i + 1 - h)).sum
    / ((((cs.take (i + 1)).drop (i + 1 - h)).length : ℕ) : ℚ)

/-- Lines 18-27 of `DataProcess.py` (`average_price`) for one instrument
group: the derived `MA_interval` column along the group's date-ascending
rows.  The source's `groupby("Stock_ID")[...].transform` computes this per
group, so the window never contains another instrument's rows. -/
def average_price (interval : ℕ) (g : List Obs) : List ℚ :=
  (List.range g.length).map (fun i => wmean interval (g.map (fun o => o.close)) i)

/-- Lines 29-42 of `DataProcess.py` (`filter_for_date`): keep exactly the
rows dated within `[start_d, end_d]`, both bounds inclusive, in their
original order; the input is not modified (pure function on lists). -/
def filter_for_date (df : List Obs) (start_d end_d : ℤ) : List Obs :=
  df.filter (fun o => decide (start_d ≤ o.date) && decide (o.date ≤ end_d))

/-- Helper for `addMAs`: walk the group attaching the six moving-average
cells position by position. -/
def addMAsFrom (cs : List ℚ) : ℕ → List Obs → List MObs
  | _, [] => []
  | i, o :: os =>
    { date := o.date, close := o.close, volume := o.volume
      ma5 := wmean 5 cs i, ma10 := wmean 10 cs i, ma20 := wmean 20 cs i
      ma60 := wmean 60 cs i, ma120 := wmean 120 cs i, ma240 := wmean 240 cs i }
      :: addMAsFrom cs (i + 1) os

/-- Lines 59-60 of `DataProcess.py`: the six `average_price` calls, attaching
`MA_5 ... MA_240` to each row of a windowed instrument group. -/
def addMAs (g : List Obs) : List MObs :=
  addMAsFrom (g.map (fun o => o.close)) 0 g

/-- Lines 57-60 of `DataProcess.py`: one instrument group restricted to
`[pred_date - 365, pred_date - 1]` and carrying its moving averages. -/
def wgroup (pred_date : ℤ) (g : List Obs) : List MObs :=
  addMAs (filter_for_date g (pred_date - 365) (pred_date - 1))

/-- `NaN`-propagating subtraction of dataframe cells. -/
def oSub (a b : Option ℚ) : Option ℚ :=
  a.bind (fun x => b.map (fun y => x - y))

/-- `NaN`-propagating division; a zero denominator yields an undefined cell.
(pandas produces `NaN` for `0/0`, the only zero-denominator shape reachable
on clean data with positive prices). -/
def oDiv (a b : Option ℚ) : Option ℚ :=
  a.bind (fun x => b.bind (fun y => if y = 0 then none else some (x / y)))

/-- pandas `>` on possibly-`NaN` cells: any comparison with `NaN` is false. -/
def oGt (a b : Option ℚ) : Bool :=
  match a, b with
  | some x, some y => decide (x > y)
  | _, _ => false

/-- pandas row-wise `mean(axis=1)` over the three moving-average cells of one
row; in this pipeline the three cells are `NaN` together or defined
together. -/
def oMean3 (a b c : Option ℚ) : Option ℚ :=
  a.bind (fun x => b.bind (fun y => c.map (fun z => (x + y + z) / 3)))

/-- Max of two rationals, written out so that it evaluates by reduction. -/
def qmax (x y : ℚ) : ℚ := if x ≤ y then y else x

/-- Min of two rationals, written out so that it evaluates by reduction. -/
def qmin (x y : ℚ) : ℚ := if x ≤ y then x else y

/-- The maximum of a list of rationals (`none` on the empty list), as pandas
`max()` on a group column. -/
def maxQ : List ℚ → Option ℚ
  | [] => none
  | q :: t =>
    some (match maxQ t with
          | none => q
          | some m => qmax q m)

/-- The minimum of a list of rationals (`none` on the empty list), as pandas
`min()` on a group column. -/
def minQ : List ℚ → Option ℚ
  | [] => none
  | q :: t =>
    some (match minQ t with
          | none => q
          | some m => qmin q m)

/-- `sort_values('Date', ascending=False).groupby(...).head(k)` followed by
`sort_values('Date')`, for one group: the last `k` rows of the
date-ascending group.  On a clean group (strictly increasing dates) the
descending sort is exactly the reversal. -/
def headK (k : ℕ) (g : List MObs) : List MObs := ((g.reverse).take k).reverse

/-- `sort_values('Date', ascending=False).groupby(...).nth[a:b]` followed by
`sort_values('Date')`, for one group: the rows ranked `a`-th to `(b-1)`-th
most recent, back in date-ascending order. -/
def nthSlice (a b : ℕ) (g : List MObs) : List MObs :=
  (((g.reverse).drop a).take (b - a)).reverse

/-- pandas `pct_change` at position `i` of the column `l`: undefined at
position 0, else the relative change from the previous entry (undefined on a
zero baseline, where pandas yields `inf`/`NaN`; unreachable on clean data). -/
def pctAt (l : List ℚ) (i : ℕ) : Option ℚ :=
  if i = 0 then none
  else
    let p := l.getD (i - 1) 0
    if p = 0 then none else some ((l.getD i 0 - p) / p)

/-- pandas `diff` at position `i` of the column `l`: undefined at position
0. -/
def diffAt (l : List ℚ) (i : ℕ) : Option ℚ :=
  if i = 0 then none else some (l.getD i 0 - l.getD (i - 1) 0)

/-- One row of the first transition frame (lines 70-76 of `DataProcess.py`):
the original columns joined with the seven `*_delta_pct` columns. -/
structure B1 where
  base : MObs
  close_dp : Option ℚ
  ma5_dp : Option ℚ
  ma10_dp : Option ℚ
  ma20_dp : Option ℚ
  ma60_dp : Option ℚ
  ma120_dp : Option ℚ
  ma240_dp : Option ℚ
deriving DecidableEq

/-- Helper: attach the seven groupwise `pct_change` columns (of `Close` and
the six `MA_*`) to the rows of a transition frame `t`, position by
position. -/
def deltaColsFrom (t : List MObs) : ℕ → List MObs → List B1
  | _, [] => []
  | i, o :: os =>
    { base := o
      close_dp := pctAt (t.map (fun x => x.close)) i
      ma5_dp := pctAt (t.map (fun x => x.ma5)) i
      ma10_dp := pctAt (t.map (fun x => x.ma10)) i
      ma20_dp := pctAt (t.map (fun x => x.ma20)) i
      ma60_dp := pctAt (t.map (fun x => x.ma60)) i
      ma120_dp := pctAt (t.map (fun x => x.ma120)) i
      ma240_dp := pctAt (t.map (fun x => x.ma240)) i }
      :: deltaColsFrom t (i + 1) os

/-- The seven `pct_change` columns joined onto a transition frame. -/
def deltaCols (t : List MObs) : List B1 := deltaColsFrom t 0 t

/-- Lines 70-76 of `DataProcess.py`: the two most recent rows per group,
groupwise `pct_change` on the date-ascending order, then
`dropna(subset=['Close_delta_pct'])`. -/
def b1rows (g : List MObs) : List B1 :=
  (deltaCols (headK 2 g)).filter (fun r => r.close_dp.isSome)

/-- One row of the second transition frame after its column selection
(lines 87-88 of `DataProcess.py`): the seven `*_delta_pct_2` columns. -/
structure B2 where
  close_dp2 : Option ℚ
  ma5_dp2 : Option ℚ
  ma10_dp2 : Option ℚ
  ma20_dp2 : Option ℚ
  ma60_dp2 : Option ℚ
  ma120_dp2 : Option ℚ
  ma240_dp2 : Option ℚ
deriving DecidableEq

/-- Lines 81-89 of `DataProcess.py`: the rows ranked 2nd and 3rd most
recent, groupwise `pct_change`, `dropna(subset=['Close_delta_pct_2'])`, and
the selection down to the seven delta columns. -/
def b2rows (g : List MObs) : List B2 :=
  ((deltaCols (nthSlice 1 3 g)).filter (fun r => r.close_dp.isSome)).map
    (fun r => ⟨r.close_dp, r.ma5_dp, r.ma10_dp, r.ma20_dp, r.ma60_dp,
               r.ma120_dp, r.ma240_dp⟩)

/-- Helper: the `Volume` `diff` column of a transition frame, position by
position. -/
def volDeltaFrom (t : List MObs) : ℕ → List MObs → List (Option ℚ)
  | _, [] => []
  | i, _ :: os => diffAt (t.map (fun x => x.volume)) i :: volDeltaFrom t (i + 1) os

/-- Lines 98-104 of `DataProcess.py`: the two most recent rows per group,
`diff` on `Volume`, `dropna(subset=['Volume_delta'])`, and the selection
down to the `Volume_delta` column. -/
def b3rows (g : List MObs) : List ℚ :=
  (volDeltaFrom (headK 2 g) 0 (headK 2 g)).filterMap id

/-- A keyed frame: association list from `Stock_ID` to a row. -/
abbrev Table (α : Type) := List (String × α)

/-- First-match key lookup; every keyed frame of this pipeline carries each
`Stock_ID` at most once, so this is exactly pandas key alignment. -/
def lookupT {α : Type} : Table α → String → Option α
  | [], _ => none
  | (k, v) :: t, s => if k = s then some v else lookupT t s

/-- A per-group frame: each instrument group contributes the rows `f`
derives from it, keyed by its `Stock_ID`. -/
def tblOf {α β : Type} (p : List (String × α)) (f : α → List β) : Table β :=
  p.flatMap (fun sg => (f sg.2).map (fun b => (sg.1, b)))

/-- pandas `merge(on='Stock_ID', how='right')` between unique-keyed frames:
keep the right frame's rows and attach the left frame's matching row, or a
`NaN` block when the key is absent on the left. -/
def mergeRight {α β : Type} (left : Table α) (right : Table β) :
    Table (Option α × β) :=
  right.map (fun kb => (kb.1, (lookupT left kb.1, kb.2)))

/-- Lines 57-60 of `DataProcess.py`: the windowed, MA-carrying frame, grouped
by instrument. -/
def prepped (df : List (String × List Obs)) (pred_date : ℤ) :
    List (String × List MObs) :=
  df.map (fun sg => (sg.1, wgroup pred_date sg.2))

/-- Lines 67-69 of `DataProcess.py`: `return_df` seeded with
`original_df['Stock_ID'].unique()` — the instruments that still have rows in
the windowed frame. -/
def return0 (p : List (String × List MObs)) : Table Unit :=
  tblOf p (fun g => if g = [] then [] else [()])

/-- Line 76 of `DataProcess.py`: the first right merge, onto the
`*_delta_pct` transition frame. -/
def r1 (p : List (String × List MObs)) : Table (Option Unit × B1) :=
  mergeRight (return0 p) (tblOf p b1rows)

/-- Line 89 of `DataProcess.py`: the second right merge, onto the
`*_delta_pct_2` transition frame. -/
def r2 (p : List (String × List MObs)) :
    Table (Option (Option Unit × B1) × B2) :=
  mergeRight (r1 p) (tblOf p b2rows)

/-- Line 104 of `DataProcess.py`: the third right merge, onto the
`Volume_delta` transition frame.  Its keys — instruments with at least two
windowed observations — are the keys of the final output. -/
def r3 (p : List (String × List MObs)) :
    Table (Option (Option (Option Unit × B1) × B2) × ℚ) :=
  mergeRight (r2 p) (tblOf p b3rows)

/-- The columns of `return_df` after line 104 that the remaining steps read:
the block-1 columns (`NaN` for instruments dropped by the second right merge
and re-introduced by the third), the block-2 columns and `Volume_delta`. -/
structure Mid where
  b1 : Option B1
  b2 : Option B2
  vd : ℚ
deriving DecidableEq

/-- `return_df` after line 104, with the nested merge products flattened
into the three column blocks of `Mid`. -/
def mids (p : List (String × List MObs)) : Table Mid :=
  (r3 p).map (fun kb =>
    (kb.1, ⟨kb.2.1.bind (fun x => x.1.map (fun y => y.2)),
            kb.2.1.map (fun y => y.2), kb.2.2⟩))

/-- Lines 117-118 of `DataProcess.py` for the `Close` series:
`Close_delta_pct - Close_delta_pct_2` with `NaN` propagation. -/
def accCol (m : Mid) : Option ℚ :=
  oSub (m.b1.bind (fun r => r.close_dp)) (m.b2.bind (fun r => r.close_dp2))

/-- Lines 131-132 of `DataProcess.py`: the per-group `max` of `Close` over
the windowed frame (groups still holding rows appear). -/
def maxTbl (p : List (String × List MObs)) : Table ℚ :=
  tblOf p (fun g => (maxQ (g.map (fun o => o.close))).toList)

/-- Lines 151-156 of `DataProcess.py`: the `20_average_volume` cell for one
group — sort the group date-descending, drop the most recent row
(`nth[1:]`), run `rolling(5, min_periods=1).mean()` over the *descending*
sequence, and keep the first remaining row (`head(1)`).  That row sits at
position 0 of the descending sequence, so its trailing window contains only
itself: the cell equals the 2nd-most-recent observation's volume whenever
the group has at least two rows. -/
def vol20 (g : List MObs) : Option ℚ :=
  let d := (g.reverse.drop 1).map (fun o => o.volume)
  ((List.range d.length).map (fun i => wmean 5 d i)).head?

/-- The `20_average_volume` frame joined at line 157 (left merge). -/
def volTbl (p : List (String × List MObs)) : Table ℚ :=
  tblOf p (fun g => (vol20 g).toList)

/-- Lines 162-166 of `DataProcess.py`: the trailing-20-observation
`max`/`min` of `Close` for one group (`nth[:20]` of the date-descending rows
includes the most recent row). -/
def stoch20 (g : List MObs) : Option (ℚ × ℚ) :=
  let w := (g.reverse.take 20).map (fun o => o.close)
  match maxQ w, minQ w with
  | some mx, some mn => some (mx, mn)
  | _, _ => none

/-- The `20_max_Close`/`20_min_Close` frame joined at line 167 (left
merge). -/
def stochTbl (p : List (String × List MObs)) : Table (ℚ × ℚ) :=
  tblOf p (fun g => (stoch20 g).toList)

/-- One row of the final feature frame (the `feature_col` selection of
lines 186-195), after the `fillna(0)` of line 169.  The sample standard
deviation columns `Std_Low_MA`, `Std_High_MA`, `Diff_Std` of lines 145-147
are real-valued square roots; no claim mentions them and they are omitted
from the embedded row — their computation does not influence which rows
exist or any other column.  `Bias_Ratio` is computed at line 172, after the
fill pass, and is the one cell that can still be undefined in the output
(`0/0` on a zero-filled row). -/
structure FOut where
  close : ℚ
  volume : ℚ
  avgVol20 : ℚ
  diffVol : ℚ
  close_dp : ℚ
  ma5_dp : ℚ
  ma10_dp : ℚ
  ma20_dp : ℚ
  ma60_dp : ℚ
  ma120_dp : ℚ
  ma240_dp : ℚ
  vdelta : ℚ
  ma5_acc : ℚ
  ma10_acc : ℚ
  ma20_acc : ℚ
  ma60_acc : ℚ
  ma120_acc : ℚ
  ma240_acc : ℚ
  close_acc : ℚ
  cross_5_10 : ℚ
  cross_5_20 : ℚ
  cross_10_20 : ℚ
  cross_close_120 : ℚ
  delta_max : ℚ
  diff_MA : ℚ
  max20 : ℚ
  min20 : ℚ
  stoch : ℚ
  bias : Option ℚ
deriving DecidableEq

/-- The `Close` column of `return_df` after line 104 (`NaN` when the
instrument was dropped by the second right merge and re-added by the
third). -/
def colClose (m : Mid) : Option ℚ := m.b1.map (fun r => r.base.close)

/-- The `Volume` column of `return_df` after line 104. -/
def colVolume (m : Mid) : Option ℚ := m.b1.map (fun r => r.base.volume)

/-- The `MA_5` column of `return_df` after line 104. -/
def colMA5 (m : Mid) : Option ℚ := m.b1.map (fun r => r.base.ma5)

/-- The `MA_10` column of `return_df` after line 104. -/
def colMA10 (m : Mid) : Option ℚ := m.b1.map (fun r => r.base.ma10)

/-- The `MA_20` column of `return_df` after line 104. -/
def colMA20 (m : Mid) : Option ℚ := m.b1.map (fun r => r.base.ma20)

/-- The `MA_60` column of `return_df` after line 104. -/
def colMA60 (m : Mid) : Option ℚ := m.b1.map (fun r => r.base.ma60)

/-- The `MA_120` column of `return_df` after line 104. -/
def colMA120 (m : Mid) : Option ℚ := m.b1.map (fun r => r.base.ma120)

/-- The `MA_240` column of `return_df` after line 104. -/
def colMA240 (m : Mid) : Option ℚ := m.b1.map (fun r => r.base.ma240)

/-- A `NaN`-propagating cell after the `fillna(0)` pass of line 169. -/
def fill0 (a : Option ℚ) : ℚ := a.getD 0

/-- Lines 117-118 for one tracked series: `delta_pct - delta_pct_2`, filled
at line 169. -/
def accF (d1 d2 : Option ℚ) : ℚ := fill0 (oSub d1 d2)

/-- Lines 124-127: a crossover indicator, `(a > b).astype(int)`. -/
def crossF (a b : Option ℚ) : ℚ := if oGt a b then 1 else 0

/-- Line 172: `Bias_Ratio` on the already-filled `Close` and `MA_20` cells
(pandas leaves `0/0 = NaN`, hence the `Option`). -/
def biasF (closeF ma20F : ℚ) : Option ℚ :=
  if ma20F = 0 then none else some ((closeF - ma20F) / ma20F)

/-- Lines 117-172 of `DataProcess.py` applied to one output row: the feature
cells derived from the merged row `m` and the left-merged `max_Close` (`mx`),
`20_average_volume` (`av`) and `20_max/min_Close` (`st`) cells.  The
`fillna(0)` of line 169 turns every `NaN` cell present at that point into 0
(`fill0`); `Bias_Ratio` is computed afterwards on the filled cells. -/
def buildRowPure (m : Mid) (mx av : Option ℚ) (st : Option (ℚ × ℚ)) : FOut :=
  { close := fill0 (colClose m)
    volume := fill0 (colVolume m)
    avgVol20 := fill0 av
    diffVol := fill0 (oDiv (colVolume m) av)
    close_dp := fill0 (m.b1.bind B1.close_dp)
    ma5_dp := fill0 (m.b1.bind B1.ma5_dp)
    ma10_dp := fill0 (m.b1.bind B1.ma10_dp)
    ma20_dp := fill0 (m.b1.bind B1.ma20_dp)
    ma60_dp := fill0 (m.b1.bind B1.ma60_dp)
    ma120_dp := fill0 (m.b1.bind B1.ma120_dp)
    ma240_dp := fill0 (m.b1.bind B1.ma240_dp)
    vdelta := m.vd
    ma5_acc := accF (m.b1.bind B1.ma5_dp) (m.b2.bind B2.ma5_dp2)
    ma10_acc := accF (m.b1.bind B1.ma10_dp) (m.b2.bind B2.ma10_dp2)
    ma20_acc := accF (m.b1.bind B1.ma20_dp) (m.b2.bind B2.ma20_dp2)
    ma60_acc := accF (m.b1.bind B1.ma60_dp) (m.b2.bind B2.ma60_dp2)
    ma120_acc := accF (m.b1.bind B1.ma120_dp) (m.b2.bind B2.ma120_dp2)
    ma240_acc := accF (m.b1.bind B1.ma240_dp) (m.b2.bind B2.ma240_dp2)
    close_acc := fill0 (accCol m)
    cross_5_10 := crossF (colMA5 m) (colMA10 m)
    cross_5_20 := crossF (colMA5 m) (colMA20 m)
    cross_10_20 := crossF (colMA10 m) (colMA20 m)
    cross_close_120 := crossF (colClose m) (colMA120 m)
    delta_max := fill0 (oDiv (oSub mx (colClose m)) mx)
    diff_MA := fill0 (oSub (oDiv (oMean3 (colMA5 m) (colMA10 m) (colMA20 m)) (colClose m))
                           (oDiv (oMean3 (colMA60 m) (colMA120 m) (colMA240 m)) (colClose m)))
    max20 := fill0 (st.map (fun x => x.1))
    min20 := fill0 (st.map (fun x => x.2))
    stoch := fill0 (oDiv (oSub (colClose m) (st.map (fun x => x.2)))
                         (oSub (st.map (fun x => x.1)) (st.map (fun x => x.2))))
    bias := biasF (fill0 (colClose m)) (fill0 (colMA20 m)) }

/-- One output row with its left-merge lookups resolved against the windowed
frame `p`. -/
def buildRow (p : List (String × List MObs)) (s : String) (m : Mid) : FOut :=
  buildRowPure m (lookupT (maxTbl p) s) (lookupT (volTbl p) s)
    (lookupT (stochTbl p) s)

/-- Lines 44-196 of `DataProcess.py` (`prediction_data_processing`): the
full feature pipeline as a keyed frame of feature rows. -/
def prediction_data_processing (df : List (String × List Obs))
    (pred_date : ℤ) : Table FOut :=
  (mids (prepped df pred_date)).map
    (fun km => (km.1, buildRow (prepped df pred_date) km.1 km.2))

/-- The spec's scenario instrument: closes 100, 105, 110 and volumes 10, 20,
40 on the three consecutive days preceding prediction date 10. -/
def exABC : List (String × List Obs) := [("A", [⟨7, 100, 10⟩, ⟨8, 105, 20⟩, ⟨9, 110, 40⟩])]

/-- An instrument with exactly two in-window observations: closes 100 and
110 on the two days preceding prediction date 10. -/
def exC7 : List (String × List Obs) := [("A", [⟨8, 100, 10⟩, ⟨9, 110, 20⟩])]

/-! ### Part 2 — claim theorems about the window filter and rolling mean -/

/-- C5: `filter_for_date` returns exactly the points with
`start_date ≤ date ≤ end_date` (both bounds inclusive), preserving the
original order (the result is a sublist of the input); an empty result is an
ordinary value, and the function is pure, leaving its input untouched. -/
theorem c5_window_filter_exact (df : List Obs) (start_d end_d : ℤ) :
    (filter_for_date df start_d end_d).Sublist df ∧
    ∀ o : Obs, o ∈ filter_for_date df start_d end_d ↔
      (o ∈ df ∧ start_d ≤ o.date ∧ o.date ≤ end_d) := by
  constructor
  · exact List.filter_sublist df
  · intro o
    simp [filter_for_date, List.mem_filter]

/-- C4: for every horizon and instrument group, the rolling mean column is
defined at every position `i`, equal to the arithmetic mean of the last
`min horizon (i+1)` closes of the group's date-sorted sequence (the window
clamps to the available history), and a group with exactly one observation
yields its single close for every horizon `≥ 1`.  The `groupby` structure of
`average_price` evaluates this per instrument group, so the window never
contains another instrument's observations. -/
theorem c4_rolling_mean_clamped (interval : ℕ) (g : List Obs)
    (h1 : 1 ≤ interval) :
    (∀ i, i < g.length →
      (((g.map (fun o => o.close)).take (i + 1)).drop (i + 1 - interval)).length
          = min interval (i + 1) ∧
      (average_price interval g)[i]? =
        some ((((g.map (fun o => o.close)).take (i + 1)).drop (i + 1 - interval)).sum
          / ((min interval (i + 1) : ℕ) : ℚ))) ∧
    (∀ o : Obs, g = [o] → average_price interval g = [o.close]) := by
  have hlen : ∀ i, i < g.length →
      (((g.map (fun o => o.close)).take (i + 1)).drop (i + 1 - interval)).length
        = min interval (i + 1) := by
    intro i hi
    rw [List.length_drop, List.length_take, List.length_map]
    omega
  constructor
  · intro i hi
    refine ⟨hlen i hi, ?_⟩
    rw [average_price, List.getElem?_map]
    rw [List.getElem?_range hi, Option.map_some', wmean, hlen i hi]
  · intro o ho
    subst ho
    have h0 : 1 - interval = 0 := by omega
    have hr : List.range 1 = [0] := rfl
    simp [average_price, wmean, h0, hr]

/-- C4 witness: horizon 5 on a single-observation group with close 42. -/
theorem c4_rolling_mean_clamped_witness :
    average_price 5 [({ date := 0, close := 42, volume := 1 } : Obs)] = [(42 : ℚ)] := by
  exact (c4_rolling_mean_clamped 5 [{ date := 0, close := 42, volume := 1 }]
    (by norm_num)).2 { date := 0, close := 42, volume := 1 } rfl

/-! ### Part 2 — concrete evaluations of the feature pipeline -/

/-- C2: the `20_average_volume` cell does not take the mean of the trailing
5 observations' volumes after excluding the most recent one.  On volumes
`10, 20, 40` (dates ascending) the claim's value is `(10 + 20) / 2 = 15`,
but the code — which sorts the group date-descending, drops the most recent
row, applies `rolling(5, min_periods=1).mean()` over the *descending*
sequence and keeps the first row, whose trailing window holds only itself —
produces `20`, the volume of the 2nd-most-recent observation alone, and
`Diff_Volume = 40 / 20 = 2` instead of `40 / 15`.  The comment
`#-- 20 days average Volume --` and the 5-wide rolling mean show the intent
the claim describes; the descending `rolling` + `head(1)` combination
defeats it. -/
theorem c2_volume_mean_code_bug :
    (lookupT (prediction_data_processing exABC 10) "A").map FOut.avgVol20 = some 20 ∧
    (lookupT (prediction_data_processing exABC 10) "A").map FOut.diffVol = some 2 ∧
    (20 : ℚ) ≠ (10 + 20) / 2 ∧ (2 : ℚ) ≠ 40 / ((10 + 20) / 2) := by
  refine ⟨?_, ?_, by norm_num, by norm_num⟩ <;>
  norm_num [exABC, prediction_data_processing, mids, r3, r2, r1, return0, mergeRight, tblOf,
    lookupT, prepped, wgroup, addMAs, addMAsFrom, filter_for_date, wmean, buildRow, buildRowPure,
    maxTbl, volTbl, stochTbl, vol20, stoch20, maxQ, minQ, qmax, qmin, headK, nthSlice,
    b1rows, b2rows, b3rows, deltaCols, deltaColsFrom, volDeltaFrom, pctAt, diffAt,
    oSub, oDiv, oGt, oMean3, accCol, fill0, accF, crossF, biasF, colClose, colVolume,
    colMA5, colMA10, colMA20, colMA60, colMA120, colMA240]

/-- C8: for an instrument whose only in-window observations are closes
100, 105, 110 on three consecutive days ending at the prediction date, the
pipeline yields `Close_delta_pct = (110 - 105) / 105`,
`Close_delta_pct_2 = (105 - 100) / 100` (computed in the second-delta
transition frame and consumed by the acceleration step; the source drops
that column from the final selection at line 120), and
`Close_acc = (110 - 105) / 105 - (105 - 100) / 100 = -1/420 ≈ -0.0024`. -/
theorem c8_three_day_scenario :
    (lookupT (prediction_data_processing exABC 10) "A").map FOut.close_dp
        = some ((110 - 105) / 105) ∧
    (lookupT (tblOf (prepped exABC 10) b2rows) "A").map B2.close_dp2
        = some (some ((105 - 100) / 100)) ∧
    (lookupT (prediction_data_processing exABC 10) "A").map FOut.close_acc
        = some ((110 - 105) / 105 - (105 - 100) / 100) ∧
    ((110 - 105 : ℚ) / 105 - (105 - 100) / 100 = -(1 / 420)) := by
  refine ⟨?_, ?_, ?_, by norm_num⟩ <;>
  norm_num [exABC, prediction_data_processing, mids, r3, r2, r1, return0, mergeRight, tblOf,
    lookupT, prepped, wgroup, addMAs, addMAsFrom, filter_for_date, wmean, buildRow, buildRowPure,
    maxTbl, volTbl, stochTbl, vol20, stoch20, maxQ, minQ, qmax, qmin, headK, nthSlice,
    b1rows, b2rows, b3rows, deltaCols, deltaColsFrom, volDeltaFrom, pctAt, diffAt,
    oSub, oDiv, oGt, oMean3, accCol, fill0, accF, crossF, biasF, colClose, colVolume,
    colMA5, colMA10, colMA20, colMA60, colMA120, colMA240]

/-- C7 counterexample: an instrument with exactly two in-window observations
(closes 100 then 110) receives an output row whose `Stochastic_Position` is
0 even though the claimed formula gives
`(110 - 100) / (110 - 100) = 1`: the row was dropped by the second right
merge, re-added by the volume merge with a `NaN` `Close`, so the stochastic
ratio is `NaN` and the line-169 fill maps it to 0, not to the formula's
value.  The trailing-window extrema in the same row are the genuine
`20_max_Close = 110`, `20_min_Close = 100`. -/
theorem c7_stochastic_counterexample :
    (lookupT (prediction_data_processing exC7 10) "A").map FOut.stoch = some 0 ∧
    (lookupT (prediction_data_processing exC7 10) "A").map FOut.max20 = some 110 ∧
    (lookupT (prediction_data_processing exC7 10) "A").map FOut.min20 = some 100 ∧
    ((110 - 100 : ℚ) / (110 - 100) = 1) ∧ (0 : ℚ) ≠ 1 := by
  refine ⟨?_, ?_, ?_, by norm_num, by norm_num⟩ <;>
  norm_num [exC7, prediction_data_processing, mids, r3, r2, r1, return0, mergeRight, tblOf,
    lookupT, prepped, wgroup, addMAs, addMAsFrom, filter_for_date, wmean, buildRow, buildRowPure,
    maxTbl, volTbl, stochTbl, vol20, stoch20, maxQ, minQ, qmax, qmin, headK, nthSlice,
    b1rows, b2rows, b3rows, deltaCols, deltaColsFrom, volDeltaFrom, pctAt, diffAt,
    oSub, oDiv, oGt, oMean3, accCol, fill0, accF, crossF, biasF, colClose, colVolume,
    colMA5, colMA10, colMA20, colMA60, colMA120, colMA240]

/-- C1 counterexample: an instrument with exactly two in-window observations
is kept in the output (one row), but its acceleration features are not left
undefined there: the acceleration column is undefined (`NaN`) when computed
at lines 117-118 — witnessed on the merged frame — and the line-169
`fillna(0)` pass then reports the defined value 0 in the final row. -/
theorem c1_acc_zero_filled_counterexample :
    (lookupT (mids (prepped exC7 10)) "A").map accCol = some none ∧
    (lookupT (prediction_data_processing exC7 10) "A").map FOut.close_acc = some 0 ∧
    (lookupT (prediction_data_processing exC7 10) "A").isSome = true := by
  refine ⟨?_, ?_, ?_⟩ <;>
  norm_num [exC7, prediction_data_processing, mids, r3, r2, r1, return0, mergeRight, tblOf,
    lookupT, prepped, wgroup, addMAs, addMAsFrom, filter_for_date, wmean, buildRow, buildRowPure,
    maxTbl, volTbl, stochTbl, vol20, stoch20, maxQ, minQ, qmax, qmin, headK, nthSlice,
    b1rows, b2rows, b3rows, deltaCols, deltaColsFrom, volDeltaFrom, pctAt, diffAt,
    oSub, oDiv, oGt, oMean3, accCol, fill0, accF, crossF, biasF, colClose, colVolume,
    colMA5, colMA10, colMA20, colMA60, colMA120, colMA240]

/-! ### Part 2 — key-lookup lemmas for the merge pipeline -/

theorem lookupT_mapVal {α β : Type} (t : Table α) (f : String → α → β) (s : String) :
    lookupT (t.map (fun kb => (kb.1, f kb.1 kb.2))) s = (lookupT t s).map (f s) := by
  induction t with
  | nil => rfl
  | cons kb rest ih =>
    obtain ⟨k, v⟩ := kb
    by_cases h : k = s
    · subst h; simp [lookupT]
    · simp [lookupT, h, ih]

theorem keys_mapVal {α β : Type} (t : Table α) (f : String → α → β) :
    (t.map (fun kb => (kb.1, f kb.1 kb.2))).map Prod.fst = t.map Prod.fst := by
  induction t with
  | nil => rfl
  | cons kb rest ih => simp_all

theorem lookupT_not_mem_keys {α : Type} {t : Table α} {s : String}
    (h : s ∉ t.map Prod.fst) : lookupT t s = none := by
  induction t with
  | nil => rfl
  | cons kb rest ih =>
    obtain ⟨k, v⟩ := kb
    simp only [List.map_cons, List.mem_cons] at h
    push_neg at h
    have hk : k ≠ s := fun hh => h.1 hh.symm
    simp [lookupT, hk, ih h.2]

theorem lookupT_of_mem_nodup {α : Type} {p : List (String × α)} {s : String} {g : α}
    (hnd : (p.map Prod.fst).Nodup) (hmem : (s, g) ∈ p) : lookupT p s = some g := by
  induction p with
  | nil => simp at hmem
  | cons kg rest ih =>
    obtain ⟨k, v⟩ := kg
    rcases List.mem_cons.mp hmem with heq | hr
    · injection heq with hk hv
      subst hk
      subst hv
      simp [lookupT]
    · have hk : k ≠ s := by
        intro hks
        subst hks
        have hm : k ∈ rest.map Prod.fst := List.mem_map.mpr ⟨(k, g), hr, rfl⟩
        exact (List.nodup_cons.mp (by simpa using hnd)).1 hm
      simp only [lookupT, hk, if_false]
      exact ih (List.nodup_cons.mp (by simpa using hnd)).2 hr

theorem keys_tblOf_subset {α β : Type} {p : List (String × α)} {f : α → List β}
    {s : String} (h : s ∈ (tblOf p f).map Prod.fst) : s ∈ p.map Prod.fst := by
  simp only [tblOf, List.map_flatMap, List.mem_flatMap] at h
  obtain ⟨sg, hsg, hs⟩ := h
  simp only [List.map_map, List.mem_map] at hs
  obtain ⟨b, -, hb⟩ := hs
  exact List.mem_map.mpr ⟨sg, hsg, hb⟩

theorem lookupT_keyBlock {β : Type} (k : String) (l : List β) (t : Table β) (s : String) :
    lookupT ((l.map (fun b => (k, b))) ++ t) s
      = if k = s then (match l with | [] => lookupT t s | b :: _ => some b)
        else lookupT t s := by
  induction l with
  | nil => simp
  | cons b bs ih =>
    by_cases h : k = s <;> simp [lookupT, h, ih]

theorem lookupT_tblOf {α β : Type} (p : List (String × α)) (f : α → List β)
    (s : String) (hnd : (p.map Prod.fst).Nodup) :
    lookupT (tblOf p f) s = (lookupT p s).bind (fun g => (f g).head?) := by
  induction p with
  | nil => rfl
  | cons kg rest ih =>
    obtain ⟨k, g⟩ := kg
    have hnd' : (rest.map Prod.fst).Nodup := (List.nodup_cons.mp (by simpa using hnd)).2
    have hknotin : k ∉ rest.map Prod.fst := (List.nodup_cons.mp (by simpa using hnd)).1
    rw [show tblOf ((k, g) :: rest) f = ((f g).map (fun b => (k, b))) ++ tblOf rest f from rfl]
    rw [lookupT_keyBlock]
    by_cases h : k = s
    · subst h
      cases hfg : f g with
      | nil =>
        have : lookupT (tblOf rest f) k = none :=
          lookupT_not_mem_keys (fun hmem => hknotin (keys_tblOf_subset hmem))
        simp [lookupT, this, hfg]
      | cons b bs => simp [lookupT, hfg]
    · simp [lookupT, h, ih hnd']

theorem head_toList {α : Type} (o : Option α) : o.toList.head? = o := by
  cases o <;> rfl

/-- Derived closed form of one instrument's `return_df` row after the three
right merges of lines 76/89/104 (proved equal to the pipeline's keyed lookup
in `lookupT_mids_eq`): the block-1 columns survive only when the block-2
frame holds a row for the instrument — the second right merge drops the
instrument and the third re-introduces it with `NaN` block-1 columns. -/
def midOf (g' : List MObs) : Option Mid :=
  ((b3rows g').head?).map (fun vd =>
    ⟨((b2rows g').head?).bind (fun _ => (b1rows g').head?), (b2rows g').head?, vd⟩)

/-- Derived closed form of one instrument's final feature row (proved equal
to the pipeline's keyed lookup in `lookupT_ppd_eq`). -/
def rowOf (g' : List MObs) : Option FOut :=
  (midOf g').map (fun m =>
    buildRowPure m (maxQ (g'.map (fun o => o.close))) (vol20 g') (stoch20 g'))

theorem keys_prepped (df : List (String × List Obs)) (pd : ℤ) :
    (prepped df pd).map Prod.fst = df.map Prod.fst :=
  keys_mapVal df (fun _ g => wgroup pd g)

theorem lookupT_prepped {df : List (String × List Obs)} {pd : ℤ} {s : String}
    {g : List Obs} (hnd : (df.map Prod.fst).Nodup) (hmem : (s, g) ∈ df) :
    lookupT (prepped df pd) s = some (wgroup pd g) := by
  have h1 : lookupT (prepped df pd) s = (lookupT df s).map (fun g => wgroup pd g) :=
    lookupT_mapVal df (fun _ g => wgroup pd g) s
  rw [h1, lookupT_of_mem_nodup hnd hmem]
  rfl

theorem lookupT_mergeRight {α β : Type} (A : Table α) (B : Table β) (s : String) :
    lookupT (mergeRight A B) s = (lookupT B s).map (fun b => (lookupT A s, b)) := by
  rw [mergeRight]
  induction B with
  | nil => rfl
  | cons kb rest ih =>
    obtain ⟨k, b⟩ := kb
    by_cases h : k = s
    · subst h; simp [lookupT]
    · simp [lookupT, h, ih]

theorem lookupT_mids (p : List (String × List MObs)) (s : String) :
    lookupT (mids p) s = (lookupT (r3 p) s).map
      (fun v => (⟨v.1.bind (fun x => x.1.map (fun y => y.2)),
                 v.1.map (fun y => y.2), v.2⟩ : Mid)) := by
  rw [mids]
  generalize r3 p = t
  induction t with
  | nil => rfl
  | cons kb rest ih =>
    obtain ⟨k, v⟩ := kb
    by_cases h : k = s
    · subst h; simp [lookupT]
    · simp [lookupT, h, ih]

theorem lookupT_outMap (df : List (String × List Obs)) (pd : ℤ) (s : String) :
    lookupT (prediction_data_processing df pd) s
      = (lookupT (mids (prepped df pd)) s).map
          (fun m => buildRow (prepped df pd) s m) := by
  rw [prediction_data_processing]
  generalize mids (prepped df pd) = t
  induction t with
  | nil => rfl
  | cons kb rest ih =>
    obtain ⟨k, v⟩ := kb
    by_cases h : k = s
    · subst h; simp [lookupT]
    · simp [lookupT, h, ih]

theorem lookupT_mids_eq {df : List (String × List Obs)} {pd : ℤ} {s : String}
    {g : List Obs} (hnd : (df.map Prod.fst).Nodup) (hmem : (s, g) ∈ df) :
    lookupT (mids (prepped df pd)) s = midOf (wgroup pd g) := by
  have hndp : ((prepped df pd).map Prod.fst).Nodup := by
    rw [keys_prepped]; exact hnd
  have hps := @lookupT_prepped df pd s g hnd hmem
  have h3 : lookupT (tblOf (prepped df pd) b3rows) s = (b3rows (wgroup pd g)).head? := by
    rw [lookupT_tblOf _ _ _ hndp, hps]; rfl
  have h2 : lookupT (tblOf (prepped df pd) b2rows) s = (b2rows (wgroup pd g)).head? := by
    rw [lookupT_tblOf _ _ _ hndp, hps]; rfl
  have h1 : lookupT (tblOf (prepped df pd) b1rows) s = (b1rows (wgroup pd g)).head? := by
    rw [lookupT_tblOf _ _ _ hndp, hps]; rfl
  have hm : lookupT (mids (prepped df pd)) s
      = (lookupT (r3 (prepped df pd)) s).map
          (fun v => (⟨v.1.bind (fun x => x.1.map (fun y => y.2)),
                     v.1.map (fun y => y.2), v.2⟩ : Mid)) :=
    lookupT_mids (prepped df pd) s
  have hr3 : lookupT (r3 (prepped df pd)) s
      = (lookupT (tblOf (prepped df pd) b3rows) s).map
          (fun b => (lookupT (r2 (prepped df pd)) s, b)) :=
    lookupT_mergeRight (r2 (prepped df pd)) (tblOf (prepped df pd) b3rows) s
  have hr2 : lookupT (r2 (prepped df pd)) s
      = (lookupT (tblOf (prepped df pd) b2rows) s).map
          (fun b => (lookupT (r1 (prepped df pd)) s, b)) :=
    lookupT_mergeRight (r1 (prepped df pd)) (tblOf (prepped df pd) b2rows) s
  have hr1 : lookupT (r1 (prepped df pd)) s
      = (lookupT (tblOf (prepped df pd) b1rows) s).map
          (fun b => (lookupT (return0 (prepped df pd)) s, b)) :=
    lookupT_mergeRight (return0 (prepped df pd)) (tblOf (prepped df pd) b1rows) s
  rw [hm]
  simp only [hr3, h3, hr2, h2, hr1, h1]
  cases hx3 : (b3rows (wgroup pd g)).head? <;>
    cases hx2 : (b2rows (wgroup pd g)).head? <;>
      cases hx1 : (b1rows (wgroup pd g)).head? <;>
        simp [midOf, hx3, hx2, hx1]

theorem lookupT_ppd_eq {df : List (String × List Obs)} {pd : ℤ} {s : String}
    {g : List Obs} (hnd : (df.map Prod.fst).Nodup) (hmem : (s, g) ∈ df) :
    lookupT (prediction_data_processing df pd) s = rowOf (wgroup pd g) := by
  have hndp : ((prepped df pd).map Prod.fst).Nodup := by
    rw [keys_prepped]; exact hnd
  have hps := @lookupT_prepped df pd s g hnd hmem
  have hout : lookupT (prediction_data_processing df pd) s
      = (lookupT (mids (prepped df pd)) s).map
          (fun m => buildRow (prepped df pd) s m) :=
    lookupT_outMap df pd s
  have hmx : lookupT (maxTbl (prepped df pd)) s
      = maxQ ((wgroup pd g).map (fun o => o.close)) := by
    rw [maxTbl, lookupT_tblOf _ _ _ hndp, hps]
    simp [head_toList]
  have hav : lookupT (volTbl (prepped df pd)) s = vol20 (wgroup pd g) := by
    rw [volTbl, lookupT_tblOf _ _ _ hndp, hps]
    simp [head_toList]
  have hst : lookupT (stochTbl (prepped df pd)) s = stoch20 (wgroup pd g) := by
    rw [stochTbl, lookupT_tblOf _ _ _ hndp, hps]
    simp [head_toList]
  rw [hout, lookupT_mids_eq hnd hmem]
  cases hmid : midOf (wgroup pd g) with
  | none => simp [rowOf, hmid]
  | some m => simp [rowOf, hmid, buildRow, hmx, hav, hst]

/-! ### Part 2 — shape lemmas about the per-group frames -/

theorem le_qmax_left (a b : ℚ) : a ≤ qmax a b := by
  rw [qmax]
  by_cases h : a ≤ b
  · simp [h]
  · simp [h]

theorem le_qmax_right (a b : ℚ) : b ≤ qmax a b := by
  rw [qmax]
  by_cases h : a ≤ b
  · simp [h]
  · rw [if_neg h]; linarith

theorem qmin_le_left (a b : ℚ) : qmin a b ≤ a := by
  rw [qmin]
  by_cases h : a ≤ b
  · simp [h]
  · rw [if_neg h]; linarith

theorem qmin_le_right (a b : ℚ) : qmin a b ≤ b := by
  rw [qmin]
  by_cases h : a ≤ b
  · simp [h]
  · simp [h]

theorem maxQ_cons_eq (a : ℚ) (t : List ℚ) :
    maxQ (a :: t) = some (match maxQ t with | none => a | some m => qmax a m) := rfl

theorem minQ_cons_eq (a : ℚ) (t : List ℚ) :
    minQ (a :: t) = some (match minQ t with | none => a | some m => qmin a m) := rfl

theorem le_maxQ : ∀ {l : List ℚ} {m : ℚ}, maxQ l = some m → ∀ q ∈ l, q ≤ m := by
  intro l
  induction l with
  | nil => intro m hm; simp [maxQ] at hm
  | cons a t ih =>
    intro m hm q hq
    rw [maxQ_cons_eq] at hm
    injection hm with hm
    cases ht : maxQ t with
    | none =>
      rw [ht] at hm
      have ht' : t = [] := by
        cases t with
        | nil => rfl
        | cons b t2 => rw [maxQ_cons_eq] at ht; simp at ht
      subst ht'
      simp at hm
      have hqa : q = a := by simpa using hq
      subst hqa
      exact le_of_eq hm
    | some mt =>
      rw [ht] at hm
      simp only [] at hm
      rcases List.mem_cons.mp hq with rfl | hq'
      · exact hm ▸ le_qmax_left q mt
      · exact le_trans (ih ht q hq') (hm ▸ le_qmax_right a mt)

theorem minQ_le : ∀ {l : List ℚ} {m : ℚ}, minQ l = some m → ∀ q ∈ l, m ≤ q := by
  intro l
  induction l with
  | nil => intro m hm; simp [minQ] at hm
  | cons a t ih =>
    intro m hm q hq
    rw [minQ_cons_eq] at hm
    injection hm with hm
    cases ht : minQ t with
    | none =>
      rw [ht] at hm
      have ht' : t = [] := by
        cases t with
        | nil => rfl
        | cons b t2 => rw [minQ_cons_eq] at ht; simp at ht
      subst ht'
      simp at hm
      have hqa : q = a := by simpa using hq
      subst hqa
      exact le_of_eq hm.symm
    | some mt =>
      rw [ht] at hm
      simp only [] at hm
      rcases List.mem_cons.mp hq with rfl | hq'
      · exact hm ▸ qmin_le_left q mt
      · exact le_trans (hm ▸ qmin_le_right a mt) (ih ht q hq')

theorem addMAsFrom_length (cs : List ℚ) :
    ∀ (i : ℕ) (l : List Obs), (addMAsFrom cs i l).length = l.length := by
  intro i l
  induction l generalizing i with
  | nil => rfl
  | cons o os ih => simp [addMAsFrom, ih]

theorem addMAsFrom_closes (cs : List ℚ) :
    ∀ (i : ℕ) (l : List Obs),
      (addMAsFrom cs i l).map (fun o => o.close) = l.map (fun o => o.close) := by
  intro i l
  induction l generalizing i with
  | nil => rfl
  | cons o os ih => simp [addMAsFrom, ih]

theorem wgroup_length (pd : ℤ) (g : List Obs) :
    (wgroup pd g).length = (filter_for_date g (pd - 365) (pd - 1)).length := by
  rw [wgroup, addMAs, addMAsFrom_length]

theorem wgroup_close_pos {pd : ℤ} {g : List Obs}
    (hpos : ∀ o ∈ g, 0 < o.close) :
    ∀ om ∈ wgroup pd g, 0 < om.close := by
  intro om hom
  have h1 : om.close ∈ (wgroup pd g).map (fun o => o.close) :=
    List.mem_map.mpr ⟨om, hom, rfl⟩
  rw [wgroup, addMAs, addMAsFrom_closes] at h1
  obtain ⟨o, ho, hc⟩ := List.mem_map.mp h1
  have hg : o ∈ g := List.mem_of_mem_filter ho
  exact hc ▸ hpos o hg

theorem exists_rev2 {α : Type} {l : List α} (h : 2 ≤ l.length) :
    ∃ x y t, l.reverse = x :: y :: t := by
  cases hr : l.reverse with
  | nil =>
    have h0 : l.length = 0 := by rw [← List.length_reverse, hr]; rfl
    omega
  | cons x rest =>
    cases rest with
    | nil =>
      have h1 : l.length = 1 := by rw [← List.length_reverse, hr]; rfl
      omega
    | cons y t => exact ⟨x, y, t, rfl⟩

theorem exists_rev3 {α : Type} {l : List α} (h : 3 ≤ l.length) :
    ∃ x y z t, l.reverse = x :: y :: z :: t := by
  obtain ⟨x, y, t, hr⟩ := exists_rev2 (by omega : 2 ≤ l.length)
  cases t with
  | nil =>
    have h2 : l.length = 2 := by rw [← List.length_reverse, hr]; rfl
    omega
  | cons z t2 => exact ⟨x, y, z, t2, hr⟩

theorem headK2_rev {g' : List MObs} {x y : MObs} {t : List MObs}
    (h : g'.reverse = x :: y :: t) : headK 2 g' = [y, x] := by
  rw [headK, h]
  rfl

theorem nthSlice13_rev {g' : List MObs} {x y z : MObs} {t : List MObs}
    (h : g'.reverse = x :: y :: z :: t) : nthSlice 1 3 g' = [z, y] := by
  rw [nthSlice, h]
  rfl

theorem nthSlice13_rev2 {g' : List MObs} {x y : MObs}
    (h : g'.reverse = [x, y]) : nthSlice 1 3 g' = [y] := by
  rw [nthSlice, h]
  rfl

theorem b1rows_base {g' : List MObs} {x y : MObs} {t : List MObs}
    (h : g'.reverse = x :: y :: t) (hy : y.close ≠ 0) :
    ∃ r : B1, (b1rows g').head? = some r ∧ r.base = x := by
  rw [b1rows, deltaCols, headK2_rev h]
  simp [deltaColsFrom, pctAt, hy]

theorem b2rows_some {g' : List MObs} {x y z : MObs} {t : List MObs}
    (h : g'.reverse = x :: y :: z :: t) (hz : z.close ≠ 0) :
    ∃ b2v : B2, (b2rows g').head? = some b2v := by
  rw [b2rows, nthSlice13_rev h]
  simp [deltaCols, deltaColsFrom, pctAt, hz]

theorem b2rows_two {g' : List MObs} {x y : MObs}
    (h : g'.reverse = [x, y]) : b2rows g' = [] := by
  rw [b2rows, nthSlice13_rev2 h]
  simp [deltaCols, deltaColsFrom, pctAt]

theorem b3rows_pair {g' : List MObs} {x y : MObs} {t : List MObs}
    (h : g'.reverse = x :: y :: t) : b3rows g' = [x.volume - y.volume] := by
  rw [b3rows, headK2_rev h]
  simp [volDeltaFrom, diffAt]

theorem b3rows_short {g' : List MObs} (h : g'.length < 2) : b3rows g' = [] := by
  cases hr : g'.reverse with
  | nil =>
    have hg : g' = [] := by
      have := congrArg List.reverse hr
      simpa using this
    subst hg
    rfl
  | cons x rest =>
    cases rest with
    | nil =>
      have hg : g' = [x] := by
        have := congrArg List.reverse hr
        simpa using this
      subst hg
      rfl
    | cons y rest2 =>
      exfalso
      have h2 : g'.length = rest2.length + 2 := by
        rw [← List.length_reverse, hr]
        simp
      omega

theorem stoch20_some {g' : List MObs} {x : MObs} {rest : List MObs}
    (h : g'.reverse = x :: rest) :
    ∃ mx mn, stoch20 g' = some (mx, mn) ∧
      x.close ≤ mx ∧ mn ≤ x.close ∧ mn ≤ mx := by
  have hw : ((x :: rest).take 20).map (fun o => o.close)
      = x.close :: ((rest.take 19).map (fun o => o.close)) := rfl
  obtain ⟨mx, hmx⟩ : ∃ mx,
      maxQ (x.close :: ((rest.take 19).map (fun o => o.close))) = some mx :=
    ⟨_, maxQ_cons_eq _ _⟩
  obtain ⟨mn, hmn⟩ : ∃ mn,
      minQ (x.close :: ((rest.take 19).map (fun o => o.close))) = some mn :=
    ⟨_, minQ_cons_eq _ _⟩
  have hx : x.close ∈ x.close :: ((rest.take 19).map (fun o => o.close)) :=
    List.mem_cons_self _ _
  have h1 := le_maxQ hmx _ hx
  have h2 := minQ_le hmn _ hx
  refine ⟨mx, mn, ?_, h1, h2, le_trans h2 h1⟩
  rw [stoch20, h, hw, hmx, hmn]

/-! ### Part 2 — remaining claim theorems about the feature pipeline -/

theorem keys_ppd (df : List (String × List Obs)) (pd : ℤ) :
    (prediction_data_processing df pd).map Prod.fst
      = (tblOf (prepped df pd) b3rows).map Prod.fst := by
  rw [prediction_data_processing, mids, r3, mergeRight]
  generalize tblOf (prepped df pd) b3rows = t
  induction t with
  | nil => rfl
  | cons kb rest ih => simp_all

theorem count_keys_b3 (df : List (String × List Obs)) (pd : ℤ) (s : String) :
    ((tblOf (prepped df pd) b3rows).map Prod.fst).count s
      = ((df.filter (fun sg =>
          decide (2 ≤ (filter_for_date sg.2 (pd - 365) (pd - 1)).length))).map
            Prod.fst).count s := by
  induction df with
  | nil => rfl
  | cons kg rest ih =>
    obtain ⟨k, g⟩ := kg
    show ((tblOf ((k, wgroup pd g) :: prepped rest pd) b3rows).map Prod.fst).count s = _
    rw [show tblOf ((k, wgroup pd g) :: prepped rest pd) b3rows
        = ((b3rows (wgroup pd g)).map (fun b => (k, b)))
            ++ tblOf (prepped rest pd) b3rows from rfl]
    by_cases hq : 2 ≤ (filter_for_date g (pd - 365) (pd - 1)).length
    · have h2 : 2 ≤ (wgroup pd g).length := by rw [wgroup_length]; exact hq
      obtain ⟨x, y, t, hrev⟩ := exists_rev2 h2
      rw [b3rows_pair hrev]
      simp [List.count_cons, hq, ih]
    · have h2 : (wgroup pd g).length < 2 := by rw [wgroup_length]; omega
      rw [b3rows_short h2]
      simp [hq, ih]

/-- C1 amended: the Feature Derivation Engine emits exactly one feature row
per instrument with at least 2 observations in the trailing window, and no
row for instruments with fewer (counted per key); instruments with at least
2 observations are never dropped.  However, for an instrument with exactly
2 windowed observations the second-order-delta and acceleration cells are
undefined only mid-pipeline: the final row reports acceleration 0, put there
by the stochastic-stage `fillna(0)` pass. -/
theorem c1_feature_row_membership (df : List (String × List Obs)) (pd : ℤ) :
    (∀ s, ((prediction_data_processing df pd).map Prod.fst).count s
        = ((df.filter (fun sg =>
            decide (2 ≤ (filter_for_date sg.2 (pd - 365) (pd - 1)).length))).map
              Prod.fst).count s) ∧
    (∀ s g, (df.map Prod.fst).Nodup → (s, g) ∈ df →
      (wgroup pd g).length = 2 →
      ∃ m row, lookupT (mids (prepped df pd)) s = some m ∧ accCol m = none ∧
        lookupT (prediction_data_processing df pd) s = some row ∧
        row.close_acc = 0) := by
  constructor
  · intro s
    rw [keys_ppd, count_keys_b3]
  · intro s g hnd hmem hlen2
    obtain ⟨x, y, t, hrev⟩ := exists_rev2 (by omega : 2 ≤ (wgroup pd g).length)
    have ht : t = [] := by
      have hlr : (wgroup pd g).length = t.length + 2 := by
        rw [← List.length_reverse, hrev]
        simp
      have h0 : t.length = 0 := by omega
      exact List.length_eq_zero.mp h0
    subst ht
    have hb2 : b2rows (wgroup pd g) = [] := b2rows_two hrev
    have hb3 : b3rows (wgroup pd g) = [x.volume - y.volume] := b3rows_pair hrev
    have hmid : lookupT (mids (prepped df pd)) s
        = some ⟨none, none, x.volume - y.volume⟩ := by
      rw [lookupT_mids_eq hnd hmem, midOf, hb3, hb2]
      rfl
    have hrow : lookupT (prediction_data_processing df pd) s
        = some (buildRowPure ⟨none, none, x.volume - y.volume⟩
            (maxQ ((wgroup pd g).map (fun o => o.close)))
            (vol20 (wgroup pd g)) (stoch20 (wgroup pd g))) := by
      rw [lookupT_ppd_eq hnd hmem, rowOf, midOf, hb3, hb2]
      rfl
    exact ⟨_, _, hmid, rfl, hrow, rfl⟩

/-- C1 amended witness: the 2-observation instrument of `exC7` keeps its
row, its acceleration is undefined mid-pipeline and 0 in the output. -/
theorem c1_feature_row_membership_witness :
    ∃ m row, lookupT (mids (prepped exC7 10)) "A" = some m ∧ accCol m = none ∧
      lookupT (prediction_data_processing exC7 10) "A" = some row ∧
      row.close_acc = 0 := by
  exact (c1_feature_row_membership exC7 10).2 "A"
    [⟨8, 100, 10⟩, ⟨9, 110, 20⟩] (by decide) (by decide) (by rfl)

/-- C7 amended: for instruments with at least 3 windowed observations the
output `Stochastic_Position` equals
`(latest close - 20-window min) / (20-window max - min)` whenever the window
is not flat, lies in `[0, 1]`, and is exactly 0 on a flat window; an
instrument with exactly 2 windowed observations gets 0 unconditionally
(its `Close` cell is `NaN` after the merge dance, so the filled ratio is 0
regardless of the window extrema) — there the claimed formula does not
apply. -/
theorem c7_stochastic_amended (df : List (String × List Obs)) (pd : ℤ)
    (s : String) (g : List Obs) (hnd : (df.map Prod.fst).Nodup)
    (hmem : (s, g) ∈ df) (hpos : ∀ o ∈ g, 0 < o.close) :
    (3 ≤ (wgroup pd g).length →
      ∃ row : FOut, lookupT (prediction_data_processing df pd) s = some row ∧
        0 ≤ row.stoch ∧ row.stoch ≤ 1 ∧
        (row.max20 = row.min20 → row.stoch = 0) ∧
        (row.max20 ≠ row.min20 →
          row.stoch = (row.close - row.min20) / (row.max20 - row.min20))) ∧
    ((wgroup pd g).length = 2 →
      ∃ row : FOut, lookupT (prediction_data_processing df pd) s = some row ∧
        row.stoch = 0) := by
  have hposg := @wgroup_close_pos pd g hpos
  constructor
  · intro h3
    obtain ⟨x, y, z, t, hrev⟩ := exists_rev3 h3
    have hymem : y ∈ wgroup pd g := by
      have hy' : y ∈ (wgroup pd g).reverse := by rw [hrev]; simp
      simpa using hy'
    have hzmem : z ∈ wgroup pd g := by
      have hz' : z ∈ (wgroup pd g).reverse := by rw [hrev]; simp
      simpa using hz'
    have hy : y.close ≠ 0 := ne_of_gt (hposg y hymem)
    have hz : z.close ≠ 0 := ne_of_gt (hposg z hzmem)
    obtain ⟨r1v, hr1v, hbase⟩ := b1rows_base hrev hy
    obtain ⟨b2v, hb2v⟩ := b2rows_some hrev hz
    have hb3 : b3rows (wgroup pd g) = [x.volume - y.volume] := b3rows_pair hrev
    obtain ⟨mx, mn, hst, hxmx, hmnx, hmnmx⟩ := stoch20_some hrev
    have hrow : lookupT (prediction_data_processing df pd) s
        = some (buildRowPure ⟨some r1v, some b2v, x.volume - y.volume⟩
            (maxQ ((wgroup pd g).map (fun o => o.close)))
            (vol20 (wgroup pd g)) (stoch20 (wgroup pd g))) := by
      rw [lookupT_ppd_eq hnd hmem, rowOf, midOf, hb3, hb2v, hr1v]
      rfl
    rw [hst] at hrow
    have hstoch : (buildRowPure ⟨some r1v, some b2v, x.volume - y.volume⟩
          (maxQ ((wgroup pd g).map (fun o => o.close)))
          (vol20 (wgroup pd g)) (some (mx, mn))).stoch
        = if mx - mn = 0 then 0 else (x.close - mn) / (mx - mn) := by
      by_cases hc : mx - mn = 0 <;>
        simp [buildRowPure, colClose, hbase, oSub, oDiv, fill0, hc]
    have hmax : (buildRowPure ⟨some r1v, some b2v, x.volume - y.volume⟩
          (maxQ ((wgroup pd g).map (fun o => o.close)))
          (vol20 (wgroup pd g)) (some (mx, mn))).max20 = mx := rfl
    have hmin : (buildRowPure ⟨some r1v, some b2v, x.volume - y.volume⟩
          (maxQ ((wgroup pd g).map (fun o => o.close)))
          (vol20 (wgroup pd g)) (some (mx, mn))).min20 = mn := rfl
    have hclose : (buildRowPure ⟨some r1v, some b2v, x.volume - y.volume⟩
          (maxQ ((wgroup pd g).map (fun o => o.close)))
          (vol20 (wgroup pd g)) (some (mx, mn))).close = x.close := by
      simp [buildRowPure, colClose, hbase, fill0]
    refine ⟨_, hrow, ?_, ?_, ?_, ?_⟩
    · rw [hstoch]
      by_cases hc : mx - mn = 0
      · simp [hc]
      · have hlt : mn < mx :=
          lt_of_le_of_ne hmnmx (fun he => hc (by rw [he, sub_self]))
        rw [if_neg hc]
        exact div_nonneg (by linarith) (by linarith)
    · rw [hstoch]
      by_cases hc : mx - mn = 0
      · simp [hc]
      · have hlt : mn < mx :=
          lt_of_le_of_ne hmnmx (fun he => hc (by rw [he, sub_self]))
        rw [if_neg hc]
        rw [div_le_one (by linarith)]
        linarith
    · rw [hstoch, hmax, hmin]
      intro he
      rw [if_pos (by rw [he, sub_self])]
    · rw [hstoch, hmax, hmin, hclose]
      intro hne
      rw [if_neg (fun hc => hne (sub_eq_zero.mp hc))]
  · intro hlen2
    obtain ⟨x, y, t, hrev⟩ := exists_rev2 (by omega : 2 ≤ (wgroup pd g).length)
    have ht : t = [] := by
      have hlr : (wgroup pd g).length = t.length + 2 := by
        rw [← List.length_reverse, hrev]
        simp
      have h0 : t.length = 0 := by omega
      exact List.length_eq_zero.mp h0
    subst ht
    have hb2 : b2rows (wgroup pd g) = [] := b2rows_two hrev
    have hb3 : b3rows (wgroup pd g) = [x.volume - y.volume] := b3rows_pair hrev
    have hrow : lookupT (prediction_data_processing df pd) s
        = some (buildRowPure ⟨none, none, x.volume - y.volume⟩
            (maxQ ((wgroup pd g).map (fun o => o.close)))
            (vol20 (wgroup pd g)) (stoch20 (wgroup pd g))) := by
      rw [lookupT_ppd_eq hnd hmem, rowOf, midOf, hb3, hb2]
      rfl
    exact ⟨_, hrow, rfl⟩

/-- C7 amended witness: instantiated on the 3-observation instrument of
`exABC` and (vacuously for its 2-observation clause) checked end to end. -/
theorem c7_stochastic_amended_witness :
    (3 ≤ (wgroup 10 [(⟨7, 100, 10⟩ : Obs), ⟨8, 105, 20⟩, ⟨9, 110, 40⟩]).length →
      ∃ row : FOut, lookupT (prediction_data_processing exABC 10) "A" = some row ∧
        0 ≤ row.stoch ∧ row.stoch ≤ 1 ∧
        (row.max20 = row.min20 → row.stoch = 0) ∧
        (row.max20 ≠ row.min20 →
          row.stoch = (row.close - row.min20) / (row.max20 - row.min20))) ∧
    ((wgroup 10 [(⟨7, 100, 10⟩ : Obs), ⟨8, 105, 20⟩, ⟨9, 110, 40⟩]).length = 2 →
      ∃ row : FOut, lookupT (prediction_data_processing exABC 10) "A" = some row ∧
        row.stoch = 0) := by
  exact c7_stochastic_amended exABC 10 "A" [⟨7, 100, 10⟩, ⟨8, 105, 20⟩, ⟨9, 110, 40⟩]
    (by decide) (by decide) (by decide)
